import Mathlib

/-!
Shallow embedding of the MiningLibraries repository mining core
(`pydriller/repository_mining.py` and `pydriller/domain/commit.py`).

Python strings are modelled as Lean `String`; the Python `str` builtins
used by the source (`split`, `startswith`, `endswith`, `replace`, `in`)
are modelled over `String.data` so everything is kernel-computable.
Datetimes are modelled as `Int` (only their total order matters).
Fallible accessors return `Option`; a raised exception is `none`/`.error`.
-/

namespace PyStr

/-- Python `s.split(c)` for a one-character separator: splits on every
occurrence, keeping empty segments (so the result is never empty). -/
def splitChar (c : Char) : List Char → List (List Char)
  | [] => [[]]
  | x :: xs =>
    if x = c then [] :: splitChar c xs
    else
      match splitChar c xs with
      | [] => [[x]]
      | h :: t => (x :: h) :: t

/-- Python `s.split(sep)` with a one-character separator, on `String`. -/
def split (s : String) (c : Char) : List String :=
  (splitChar c s.data).map (fun l => ⟨l⟩)

/-- Python `s.replace(old, '')` for the one-character `old` used by the
source (`replace('\r', '')`): removes every occurrence. -/
def removeChar (s : String) (c : Char) : String :=
  ⟨s.data.filter (fun x => x ≠ c)⟩

/-- Python `s.startswith(pre)`. -/
def startswith (s pre : String) : Bool :=
  pre.data.isPrefixOf s.data

/-- Python `s.endswith(suf)`. -/
def endswith (s suf : String) : Bool :=
  suf.data.isSuffixOf s.data

/-- Python `c in s` for a one-character needle (`os.sep` is `'/'`). -/
def containsChar (s : String) (c : Char) : Bool :=
  s.data.contains c

end PyStr

/-- `ModificationType` enumeration from `pydriller/domain/commit.py`. -/
inductive ModificationType where
  | ADD
  | COPY
  | RENAME
  | DELETE
  | MODIFY
deriving DecidableEq, Repr

/-- `Modification` value from `pydriller/domain/commit.py`: `change_type`
is `Option` because `_from_change_to_modification_type` can return no
value (Python `None`). -/
structure Modification where
  old_path : Option String
  new_path : Option String
  change_type : Option ModificationType
  diff : String
  source_code : String
deriving DecidableEq, Repr

namespace Modification

/-- `Modification.added`: count the diff lines (after removing `'\r'`,
split on `'\n'`) that start with `'+'` but not `'+++'`. The loop
accumulates into `added`, modelled as a left fold. -/
def added (m : Modification) : Nat :=
  (PyStr.split (PyStr.removeChar m.diff '\r') '\n').foldl
    (fun acc line =>
      if PyStr.startswith line "+" ∧ ¬ PyStr.startswith line "+++" then acc + 1 else acc)
    0

/-- `Modification.removed`: same loop with `'-'` / `'---'`. -/
def removed (m : Modification) : Nat :=
  (PyStr.split (PyStr.removeChar m.diff '\r') '\n').foldl
    (fun acc line =>
      if PyStr.startswith line "-" ∧ ¬ PyStr.startswith line "---" then acc + 1 else acc)
    0

/-- `Modification.filename`: pick `new_path` when present and not
`"/dev/null"`, else `old_path`; when the picked path is Python `None`
the membership test `os.sep not in path` raises (modelled as `none`);
otherwise return the path itself when it holds no separator, else the
last `os.sep`-separated segment (`os.sep = '/'`). -/
def filename (m : Modification) : Option String :=
  let path : Option String :=
    match m.new_path with
    | some p => if p ≠ "/dev/null" then some p else m.old_path
    | none => m.old_path
  match path with
  | none => none
  | some p =>
    if ¬ PyStr.containsChar p '/' then some p
    else some ((PyStr.split p '/').getLastD "")

end Modification

/-- One entry of a backend diff index (GitPython `Diff` object), at the
interface the repository code consumes: paths, change flags, blob
identities (`none` = Python `None`), and the outcomes of the two text
decodings attempted by `_parse_diff` (`none` = the decode raised). -/
structure DiffEntry where
  a_path : Option String
  b_path : Option String
  new_file : Bool
  deleted_file : Bool
  renamed_file : Bool
  a_blob : Option String
  b_blob : Option String
  diff_text? : Option String
  b_blob_text? : Option String
deriving DecidableEq, Repr

/-- `Commit._from_change_to_modification_type`: the if/elif chain; the
last guard is Python `d.a_blob and d.b_blob and d.a_blob != d.b_blob`
(both blobs present and distinct); no branch taken returns `None`. -/
def fromChangeToModificationType (d : DiffEntry) : Option ModificationType :=
  if d.new_file then some .ADD
  else if d.deleted_file then some .DELETE
  else if d.renamed_file then some .RENAME
  else
    match d.a_blob, d.b_blob with
    | some a, some b => if a ≠ b then some .MODIFY else none
    | _, _ => none

/-- The body of the `_parse_diff` loop for one entry: `diff_text` and
`sc` start as `''`; the `try` block first decodes the diff, then the
post-change blob, so a diff-decode failure leaves both empty and a
blob failure leaves only `sc` empty. -/
def parseDiffEntry (d : DiffEntry) : Modification :=
  let texts : String × String :=
    match d.diff_text? with
    | none => ("", "")
    | some dt =>
      match d.b_blob_text? with
      | none => (dt, "")
      | some sc => (dt, sc)
  { old_path := d.a_path
    new_path := d.b_path
    change_type := fromChangeToModificationType d
    diff := texts.1
    source_code := texts.2 }

/-- `Commit._parse_diff`: one `Modification` appended per entry, in
backend order. -/
def parseDiff (diff_index : List DiffEntry) : List Modification :=
  diff_index.map parseDiffEntry

/-- `NULL_TREE` sentinel from `pydriller/domain/commit.py`. -/
def NULL_TREE : String := "4b825dc642cb6eb9a060e54bf8d69288fbee4904"

/-- The backend (GitPython) state a `Commit` needs: its sha, parent
shas, and the diff index produced against a given base (a parent
commit sha, or the `NULL_TREE` tree sha). -/
structure GitBackend where
  diffAgainst : String → List DiffEntry

/-- `Commit.modifications`: diff against `parents[0]` when the commit
has a parent, else against the `NULL_TREE` sentinel, then parse. -/
def Commit.modifications (backend : GitBackend) (parents : List String) : List Modification :=
  let diff_index :=
    match parents with
    | p :: _ => backend.diffAgainst p
    | [] => backend.diffAgainst NULL_TREE
  parseDiff diff_index

/-- The `Commit` view consumed by the mining engine's filters: hash,
author date, and the backend-derived properties (`in_main_branch`,
`branches`, `modifications`, `merge`) the predicates read. -/
structure MCommit where
  hash : String
  author_date : Int
  in_main_branch : Bool
  branches : List String
  modifications : List Modification
  merge : Bool
deriving DecidableEq, Repr

namespace RepositoryMining

/-- The state a `RepositoryMining` instance holds after `__init__`
resolved `from_commit`/`to_commit`/`from_tag`/`to_tag` into
`since`/`to` (fields of `repository_mining.py`). -/
structure Config where
  single : Option String
  since : Option Int
  «to» : Option Int
  reversed_order : Bool
  only_in_main_branch : Bool
  only_in_branches : Option (List String)
  only_modifications_with_file_types : Option (List String)
  only_no_merge : Bool

/-- The raw filter arguments `__init__` passes to `_check_filters`. -/
structure FilterArgs where
  single : Option String
  since : Option Int
  «to» : Option Int
  from_commit : Option String
  to_commit : Option String
  from_tag : Option String
  to_tag : Option String

/-- `RepositoryMining._check_filters`, with the backend lookups
`git_repo.get_commit(h).author_date` and
`git_repo.get_commit_from_tag(t).author_date` passed in as functions.
Returns the resolved `(since, to)` pair or the raised message. The
tag/commit guards test the original `since`/`to`/`from_commit`/
`to_commit` arguments, exactly as the Python parameters do. -/
def checkFilters (commitDate tagDate : String → Int) (a : FilterArgs) :
    Except String (Option Int × Option Int) :=
  if a.single.isSome ∧
      (a.since.isSome ∨ a.to.isSome ∨ a.from_commit.isSome ∨
       a.to_commit.isSome ∨ a.from_tag.isSome ∨ a.to_tag.isSome) then
    .error "You can not specify a single commit with other filters"
  else if a.from_commit.isSome ∧ a.since.isSome then
    .error "You can not specify both <since date> and <from commit>"
  else
    let since1 : Option Int :=
      match a.from_commit with
      | some fc => some (commitDate fc)
      | none => a.since
    if a.to_commit.isSome ∧ a.to.isSome then
      .error "You can not specify both <to date> and <to commit>"
    else
      let to1 : Option Int :=
        match a.to_commit with
        | some tc => some (commitDate tc)
        | none => a.to
      if a.from_tag.isSome ∧ (a.since.isSome ∨ a.from_commit.isSome) then
        .error "You can not specify <since date> or <from commit> when using <from tag>"
      else
        let since2 : Option Int :=
          match a.from_tag with
          | some ft => some (tagDate ft)
          | none => since1
        if a.to_tag.isSome ∧ (a.to.isSome ∨ a.to_commit.isSome) then
          .error "You can not specify <to date> or <to commit> when using <to tag>"
        else
          let to2 : Option Int :=
            match a.to_tag with
            | some tt => some (tagDate tt)
            | none => to1
          .ok (since2, to2)

/-- `RepositoryMining._commit_branch_in_branches`. -/
def commitBranchInBranches (only_in_branches : List String) (c : MCommit) : Bool :=
  c.branches.any (fun branch => only_in_branches.contains branch)

/-- `RepositoryMining._has_modification_with_file_type`:
`mod.filename.endswith(tuple(types))`, i.e. the filename ends with some
configured suffix (the engine is only run on modifications whose
filename is defined; `getD ""` stands for that value). -/
def hasModificationWithFileType (types : List String) (c : MCommit) : Bool :=
  c.modifications.any (fun mod =>
    types.any (fun t => PyStr.endswith ((Modification.filename mod).getD "") t))

/-- `RepositoryMining._is_commit_filtered`: the four early-return
checks in order. -/
def isCommitFiltered (cfg : Config) (c : MCommit) : Bool :=
  if cfg.only_in_main_branch ∧ c.in_main_branch = false then true
  else if h : cfg.only_in_branches.isSome then
    if ¬ commitBranchInBranches (cfg.only_in_branches.get h) c then true
    else isCommitFilteredRest cfg c
  else isCommitFilteredRest cfg c
where
  /-- the last two checks of `_is_commit_filtered`. -/
  isCommitFilteredRest (cfg : Config) (c : MCommit) : Bool :=
    if h : cfg.only_modifications_with_file_types.isSome then
      if ¬ hasModificationWithFileType (cfg.only_modifications_with_file_types.get h) c then true
      else cfg.only_no_merge ∧ c.merge
    else cfg.only_no_merge ∧ c.merge

/-- The `single`-hash test heading the `_apply_filters_on_commits`
loop: `self.single is not None and commit.hash == self.single`. -/
def matchesSingle (cfg : Config) (c : MCommit) : Bool :=
  match cfg.single with
  | some s => c.hash = s
  | none => false

/-- The nested `since`/`to` conditionals of the loop:
`(since is None or since <= author_date) and (to is None or author_date <= to)`. -/
def passesWindow (cfg : Config) (c : MCommit) : Bool :=
  (cfg.since.all (fun s => s ≤ c.author_date)) ∧ (cfg.to.all (fun t => c.author_date ≤ t))

/-- The `for commit in all_commits` loop of `_apply_filters_on_commits`:
a matching `single` hash returns `[commit]` alone, discarding the
accumulated `res`; otherwise commits passing the window are appended
to `res`, which the loop returns at the end. -/
def applyFiltersLoop (cfg : Config) (res : List MCommit) : List MCommit → List MCommit
  | [] => res
  | c :: rest =>
    if matchesSingle cfg c then [c]
    else if passesWindow cfg c then applyFiltersLoop cfg (res ++ [c]) rest
    else applyFiltersLoop cfg res rest

/-- `RepositoryMining._all_filters_are_none`. -/
def allFiltersAreNone (cfg : Config) : Bool :=
  cfg.single.isNone ∧ cfg.since.isNone ∧ cfg.to.isNone

/-- `RepositoryMining._apply_filters_on_commits`. -/
def applyFiltersOnCommits (cfg : Config) (all_commits : List MCommit) : List MCommit :=
  if allFiltersAreNone cfg then all_commits
  else applyFiltersLoop cfg [] all_commits

/-- `RepositoryMining.traverse_commits` on a backend commit list
(`git_repo.get_list_commits()`): filter, reverse unless
`reversed_order`, then yield the commits `_is_commit_filtered` lets
through, as the list of yields. -/
def traverseCommits (cfg : Config) (all_commits : List MCommit) : List MCommit :=
  let all_cs := applyFiltersOnCommits cfg all_commits
  let all_cs := if ¬ cfg.reversed_order then all_cs.reverse else all_cs
  all_cs.filter (fun c => ! isCommitFiltered cfg c)

/-- The conflicting filter combinations named by the validation rules:
`single` with any other temporal/range filter, `from_commit` with
`since`, `to_commit` with `to`, `from_tag` with `since` or
`from_commit`, `to_tag` with `to` or `to_commit`. Transcribed from the
specified rules, to be compared with `checkFilters`. -/
def conflictingCombination (a : FilterArgs) : Bool :=
  (a.single.isSome && (a.since.isSome || a.«to».isSome || a.from_commit.isSome ||
      a.to_commit.isSome || a.from_tag.isSome || a.to_tag.isSome))
  || (a.from_commit.isSome && a.since.isSome)
  || (a.to_commit.isSome && a.«to».isSome)
  || (a.from_tag.isSome && (a.since.isSome || a.from_commit.isSome))
  || (a.to_tag.isSome && (a.«to».isSome || a.to_commit.isSome))

/-- The configuration produced by `__init__` with every keyword left at
its default. -/
def defaultConfig : Config :=
  Config.mk none none none false false none none false

end RepositoryMining

/-- A non-merge example commit. -/
def exCommitA : MCommit :=
  MCommit.mk "h1" 10 true ["master"] [] false

/-- A merge example commit. -/
def exCommitB : MCommit :=
  MCommit.mk "h2" 20 true ["master"] [] true

/-- The last `'/'`-delimited segment of a path, as the claims describe
`filename`: the final element of the split (which is the whole path
when the path holds no separator). -/
def lastPathSegment (p : String) : String :=
  (PyStr.split p '/').getLastD p

/-- A binary diff entry: both text decodings fail. -/
def exDiffBinary : DiffEntry :=
  DiffEntry.mk (some "img.png") (some "img.png") false false false
    (some "b1") (some "b2") none none

/-- A well-behaved textual diff entry. -/
def exDiffText : DiffEntry :=
  DiffEntry.mk (some "a.py") (some "a.py") false false false
    (some "b3") (some "b4") (some "+x") (some "x = 1")

/-! ## Helper lemmas -/

theorem PyStr.splitChar_ne_nil (c : Char) (l : List Char) : PyStr.splitChar c l ≠ [] := by
  induction l with
  | nil => simp [PyStr.splitChar]
  | cons x xs ih =>
    simp only [PyStr.splitChar]
    split
    · simp
    · cases h : PyStr.splitChar c xs <;> simp

theorem foldl_if_count (P : String → Prop) [DecidablePred P] (ls : List String) (n : Nat) :
    ls.foldl (fun acc line => if P line then acc + 1 else acc) n
      = n + ls.countP (fun line => decide (P line)) := by
  induction ls generalizing n with
  | nil => simp
  | cons x xs ih =>
    simp only [List.foldl_cons, List.countP_cons, ih]
    by_cases h : P x <;> simp [h] <;> omega

theorem getLastD_eq_of_ne_nil {α : Type} (l : List α) (a b : α) (h : l ≠ []) :
    l.getLastD a = l.getLastD b := by
  cases l with
  | nil => exact absurd rfl h
  | cons x xs => simp [List.getLastD]

theorem PyStr.splitChar_not_mem (c : Char) (l : List Char) (h : c ∉ l) :
    PyStr.splitChar c l = [l] := by
  induction l with
  | nil => simp [PyStr.splitChar]
  | cons x xs ih =>
    simp only [List.mem_cons, not_or] at h
    simp only [PyStr.splitChar]
    rw [if_neg (by exact fun hx => h.1 (by rw [hx]))]
    rw [ih h.2]

theorem PyStr.split_no_sep (p : String) (h : PyStr.containsChar p '/' = false) :
    PyStr.split p '/' = [p] := by
  unfold PyStr.split
  rw [PyStr.splitChar_not_mem]
  · simp
  · intro hmem
    simp only [PyStr.containsChar] at h
    simp at h
    exact h hmem

theorem PyStr.split_ne_nil (p : String) (c : Char) : PyStr.split p c ≠ [] := by
  unfold PyStr.split
  intro h
  exact PyStr.splitChar_ne_nil c p.data (List.map_eq_nil.mp h)

/-! ## Claims about the Modification / Commit models -/

/-- C7: `added` counts exactly the diff lines starting with `'+'` but
not `'+++'` (and `removed` those starting with `'-'` but not `'---'`),
over the `'\r'`-stripped, `'\n'`-split diff text; in particular the
`Modification` built from the diff `"+++ b/x.py\n+print(1)\n"` has
`added = 1`. -/
theorem added_removed_count :
    (∀ m : Modification,
        m.added = (PyStr.split (PyStr.removeChar m.diff '\r') '\n').countP
            (fun line => PyStr.startswith line "+" && ! PyStr.startswith line "+++")
      ∧ m.removed = (PyStr.split (PyStr.removeChar m.diff '\r') '\n').countP
            (fun line => PyStr.startswith line "-" && ! PyStr.startswith line "---"))
    ∧ (Modification.mk none (some "x.py") (some .ADD) "+++ b/x.py\n+print(1)\n" "").added = 1 := by
  constructor
  · intro m
    constructor
    · rw [Modification.added, foldl_if_count]
      rw [Nat.zero_add]
      congr 1
      funext line
      by_cases h1 : PyStr.startswith line "+" <;>
        by_cases h2 : PyStr.startswith line "+++" <;> simp [h1, h2]
    · rw [Modification.removed, foldl_if_count]
      rw [Nat.zero_add]
      congr 1
      funext line
      by_cases h1 : PyStr.startswith line "-" <;>
        by_cases h2 : PyStr.startswith line "---" <;> simp [h1, h2]
  · decide

/-- C10: `filename` is defined exactly when the selected path is
present: it returns the last `'/'`-delimited segment of `new_path`
when that is present and not `"/dev/null"`, otherwise of `old_path`
when present, and fails (`none`) when the fallback `old_path` is also
absent; a path without separator is its own last segment. -/
theorem filename_spec (m : Modification) :
    (∀ p, m.new_path = some p → p ≠ "/dev/null" →
        m.filename = some (lastPathSegment p))
    ∧ (∀ q, (m.new_path = none ∨ m.new_path = some "/dev/null") →
        m.old_path = some q → m.filename = some (lastPathSegment q))
    ∧ ((m.new_path = none ∨ m.new_path = some "/dev/null") →
        m.old_path = none → m.filename = none)
    ∧ (∀ p, PyStr.containsChar p '/' = false → lastPathSegment p = p) := by
  have hseg : ∀ p : String,
      (if ¬ PyStr.containsChar p '/' then some p
       else some ((PyStr.split p '/').getLastD "")) = some (lastPathSegment p) := by
    intro p
    by_cases h : PyStr.containsChar p '/'
    · rw [if_neg (by simp [h])]
      unfold lastPathSegment
      rw [getLastD_eq_of_ne_nil _ _ _ (PyStr.split_ne_nil p '/')]
    · rw [if_pos (by simp [h])]
      unfold lastPathSegment
      rw [PyStr.split_no_sep p (by simp [h])]
      simp [List.getLastD]
  refine ⟨?_, ?_, ?_, ?_⟩
  · intro p hnew hdev
    unfold Modification.filename
    rw [hnew]
    simp only [if_pos hdev]
    exact hseg p
  · intro q hnew hold
    unfold Modification.filename
    rcases hnew with h | h <;> rw [h] <;> simp only [if_neg (by simp : ¬ ("/dev/null" : String) ≠ "/dev/null")] <;>
      rw [hold] <;> exact hseg q
  · intro hnew hold
    unfold Modification.filename
    rcases hnew with h | h <;> rw [h] <;>
      simp only [if_neg (by simp : ¬ ("/dev/null" : String) ≠ "/dev/null")] <;> rw [hold]
  · intro p h
    unfold lastPathSegment
    rw [PyStr.split_no_sep p h]
    simp [List.getLastD]

/-- C10 witness: concrete evaluations of `filename` through
`filename_spec`: a two-segment `new_path`, a `"/dev/null"` `new_path`
falling back to `old_path`, and the failing all-absent case. -/
theorem filename_spec_witness :
    (Modification.mk none (some "a/b.py") none "" "").filename = some (lastPathSegment "a/b.py")
    ∧ (Modification.mk (some "c.py") (some "/dev/null") none "" "").filename
        = some (lastPathSegment "c.py")
    ∧ (Modification.mk none none none "" "").filename = none :=
  ⟨(filename_spec _).1 "a/b.py" rfl (by decide),
   (filename_spec _).2.1 "c.py" (Or.inr rfl) rfl,
   (filename_spec _).2.2.1 (Or.inl rfl) rfl⟩

/-- C6: `_parse_diff` builds exactly one `Modification` per diff entry,
in backend order; an entry whose diff text fails to decode gets
`diff = ""` and `source_code = ""`, an entry whose post-change blob is
missing or fails to decode gets `source_code = ""`, and neither failure
drops the entry or any later entry. -/
theorem parseDiff_decode_failure (ds : List DiffEntry) :
    (parseDiff ds).length = ds.length
    ∧ ∀ i (h1 : i < ds.length) (h2 : i < (parseDiff ds).length),
        ((parseDiff ds).get ⟨i, h2⟩).old_path = (ds.get ⟨i, h1⟩).a_path
        ∧ ((parseDiff ds).get ⟨i, h2⟩).new_path = (ds.get ⟨i, h1⟩).b_path
        ∧ ((ds.get ⟨i, h1⟩).diff_text? = none →
            ((parseDiff ds).get ⟨i, h2⟩).diff = ""
            ∧ ((parseDiff ds).get ⟨i, h2⟩).source_code = "")
        ∧ ((ds.get ⟨i, h1⟩).b_blob_text? = none →
            ((parseDiff ds).get ⟨i, h2⟩).source_code = "") := by
  refine ⟨by simp [parseDiff], ?_⟩
  intro i h1 h2
  have hget : (parseDiff ds).get ⟨i, h2⟩ = parseDiffEntry (ds.get ⟨i, h1⟩) := by
    simp [parseDiff]
  rw [hget]
  set d := ds.get ⟨i, h1⟩ with hd
  refine ⟨rfl, rfl, ?_, ?_⟩
  · intro hdt
    unfold parseDiffEntry
    rw [hdt]
    exact ⟨rfl, rfl⟩
  · intro hblob
    unfold parseDiffEntry
    cases hdt : d.diff_text? with
    | none => rfl
    | some dt => rw [hblob]

/-- C6 witness: a two-entry diff index whose first entry is binary
(both decodes fail): the first `Modification` has empty text fields
and the second is still produced with its own content. -/
theorem parseDiff_decode_failure_witness :
    (parseDiff [exDiffBinary, exDiffText]).length = 2
    ∧ ((parseDiff [exDiffBinary, exDiffText]).get ⟨0, by decide⟩).source_code = ""
    ∧ ((parseDiff [exDiffBinary, exDiffText]).get ⟨1, by decide⟩).source_code = "x = 1" :=
  ⟨(parseDiff_decode_failure [exDiffBinary, exDiffText]).1,
   (((parseDiff_decode_failure [exDiffBinary, exDiffText]).2 0 (by decide) (by decide)).2.2.1
      (by decide)).2,
   by decide⟩

/-- C8: a commit with a parent is diffed against its first parent
only; a root commit is diffed against the `NULL_TREE` sentinel, and —
under the backend contract that a diff from the empty tree reports
every entry as a new file with no old path — each of its Modifications
has `change_type = ADD` and `old_path` absent. -/
theorem modifications_parent_choice (backend : GitBackend) (parents : List String) :
    (parents = [] →
        Commit.modifications backend parents = parseDiff (backend.diffAgainst NULL_TREE))
    ∧ (∀ p ps, parents = p :: ps →
        Commit.modifications backend parents = parseDiff (backend.diffAgainst p))
    ∧ (parents = [] →
        (∀ d ∈ backend.diffAgainst NULL_TREE, d.new_file = true ∧ d.a_path = none) →
        ∀ m ∈ Commit.modifications backend parents,
          m.change_type = some ModificationType.ADD ∧ m.old_path = none) := by
  refine ⟨?_, ?_, ?_⟩
  · intro h; rw [h]; rfl
  · intro p ps h; rw [h]; rfl
  · intro h hroot m hm
    rw [h] at hm
    unfold Commit.modifications parseDiff at hm
    simp only [List.mem_map] at hm
    obtain ⟨d, hd, hmd⟩ := hm
    obtain ⟨hnew, hpath⟩ := hroot d hd
    subst hmd
    unfold parseDiffEntry fromChangeToModificationType
    rw [hnew]
    exact ⟨rfl, hpath⟩

/-- C8 witness: a root commit over a one-entry backend whose empty-tree
diff reports a new file: the single resulting Modification is an `ADD`
with no old path. -/
theorem modifications_parent_choice_witness :
    ∀ m ∈ Commit.modifications
        (GitBackend.mk (fun _ =>
          [DiffEntry.mk none (some "init.py") true false false
              none (some "b9") (some "+hello") (some "hello")])) [],
      m.change_type = some ModificationType.ADD ∧ m.old_path = none :=
  (modifications_parent_choice _ []).2.2 rfl (by decide)

/-- C9: when the three backend flags are all false and it is not the
case that both blobs are present with distinct identities, the
classifier falls off its if/elif chain and returns `none`, so the
`Modification` built from such an entry carries `change_type = none`
(a value outside the `ModificationType` enumeration); moreover the
classifier never returns `COPY` on any entry. -/
theorem changeType_none_cases :
    (∀ d : DiffEntry, d.new_file = false → d.deleted_file = false → d.renamed_file = false →
        (¬ ∃ a b, d.a_blob = some a ∧ d.b_blob = some b ∧ a ≠ b) →
        fromChangeToModificationType d = none ∧ (parseDiffEntry d).change_type = none)
    ∧ ∀ d : DiffEntry, fromChangeToModificationType d ≠ some ModificationType.COPY := by
  constructor
  · intro d h1 h2 h3 h4
    have hcl : fromChangeToModificationType d = none := by
      unfold fromChangeToModificationType
      rw [h1, h2, h3]
      simp only [Bool.false_eq_true, if_false]
      cases ha : d.a_blob with
      | none => rfl
      | some a =>
        cases hb : d.b_blob with
        | none => rfl
        | some b =>
          have hab : a = b := by
            by_contra hne
            exact h4 ⟨a, b, ha, hb, hne⟩
          subst hab
          simp
    exact ⟨hcl, by unfold parseDiffEntry; rw [hcl]⟩
  · intro d
    unfold fromChangeToModificationType
    split
    · simp
    · split
      · simp
      · split
        · simp
        · split
          · split <;> simp
          · simp

/-- C9 witness: a deleted-file-style entry (all flags false, no
post-change blob) classifies to `none`, and its Modification's
`change_type` is `none`. -/
theorem changeType_none_cases_witness :
    fromChangeToModificationType
        (DiffEntry.mk (some "gone.py") none false false false (some "b1") none none none) = none
    ∧ (parseDiffEntry
        (DiffEntry.mk (some "gone.py") none false false false (some "b1") none none none)).change_type
        = none :=
  changeType_none_cases.1 _ rfl rfl rfl (by rintro ⟨a, b, ha, hb, hab⟩; simp at hb)

/-! ## Claims about the mining engine -/

namespace RepositoryMining

theorem matchesSingle_none (cfg : Config) (h : cfg.single = none) (c : MCommit) :
    matchesSingle cfg c = false := by
  simp [matchesSingle, h]

theorem allFiltersAreNone_fields (cfg : Config) (h : allFiltersAreNone cfg = true) :
    cfg.single = none ∧ cfg.since = none ∧ cfg.«to» = none := by
  simp only [allFiltersAreNone, decide_eq_true_eq, Option.isNone_iff_eq_none] at h
  exact h

theorem applyFiltersLoop_no_match (cfg : Config) (cs : List MCommit) :
    ∀ res : List MCommit, (∀ c ∈ cs, matchesSingle cfg c = false) →
      applyFiltersLoop cfg res cs = res ++ cs.filter (fun c => passesWindow cfg c) := by
  induction cs with
  | nil => intro res _; simp [applyFiltersLoop]
  | cons c rest ih =>
    intro res h
    have hc : matchesSingle cfg c = false := h c (List.mem_cons_self c rest)
    have hrest : ∀ x ∈ rest, matchesSingle cfg x = false :=
      fun x hx => h x (List.mem_cons_of_mem c hx)
    simp only [applyFiltersLoop]
    rw [if_neg (by simp [hc])]
    by_cases hw : passesWindow cfg c = true
    · rw [if_pos hw, ih (res ++ [c]) hrest, List.filter_cons_of_pos hw]
      simp
    · rw [if_neg hw, ih res hrest, List.filter_cons_of_neg hw]

theorem applyFiltersLoop_found (cfg : Config) (s : String) (hs : cfg.single = some s) :
    ∀ cs res : List MCommit, (∃ c ∈ cs, c.hash = s) →
      ∃ c0, c0 ∈ cs ∧ c0.hash = s ∧ applyFiltersLoop cfg res cs = [c0] := by
  intro cs
  induction cs with
  | nil =>
    intro res h
    simp at h
  | cons c rest ih =>
    intro res hex
    by_cases hm : matchesSingle cfg c = true
    · have hhash : c.hash = s := by simpa [matchesSingle, hs] using hm
      refine ⟨c, List.mem_cons_self c rest, hhash, ?_⟩
      simp [applyFiltersLoop, hm]
    · have hex' : ∃ x ∈ rest, x.hash = s := by
        rcases hex with ⟨x, hx, hxs⟩
        rcases List.mem_cons.mp hx with heq | hx'
        · subst heq
          exact absurd (by simp [matchesSingle, hs, hxs]) hm
        · exact ⟨x, hx', hxs⟩
      simp only [applyFiltersLoop]
      rw [if_neg hm]
      by_cases hw : passesWindow cfg c = true
      · rw [if_pos hw]
        obtain ⟨c0, h1, h2, h3⟩ := ih (res ++ [c]) hex'
        exact ⟨c0, List.mem_cons_of_mem c h1, h2, h3⟩
      · rw [if_neg hw]
        obtain ⟨c0, h1, h2, h3⟩ := ih res hex'
        exact ⟨c0, List.mem_cons_of_mem c h1, h2, h3⟩

theorem mem_of_mem_traverse (cfg : Config) (cs : List MCommit) :
    ∀ c ∈ traverseCommits cfg cs, c ∈ applyFiltersOnCommits cfg cs := by
  intro c hc
  have h1 := (List.mem_filter.mp hc).1
  cases hro : cfg.reversed_order <;> simp [hro] at h1 <;> exact h1

/-- C1 (amended): when `single` is set and the backend list holds a
commit with that hash, the filter pass returns that commit alone, so
the traversal yields at most one commit and every yielded commit's
hash is the requested one. -/
theorem traverse_single_found (cfg : Config) (cs : List MCommit) (s : String)
    (hs : cfg.single = some s) (hmem : ∃ c ∈ cs, c.hash = s) :
    (traverseCommits cfg cs).length ≤ 1
    ∧ ∀ c ∈ traverseCommits cfg cs, c.hash = s := by
  have hnone : allFiltersAreNone cfg = false := by
    simp [allFiltersAreNone, hs]
  obtain ⟨c0, hc0mem, hc0hash, hloop⟩ := applyFiltersLoop_found cfg s hs cs [] hmem
  have happ : applyFiltersOnCommits cfg cs = [c0] := by
    unfold applyFiltersOnCommits
    rw [if_neg (by simp [hnone]), hloop]
  have hone : (if ¬ cfg.reversed_order then ([c0] : List MCommit).reverse else [c0]) = [c0] := by
    cases cfg.reversed_order <;> simp
  have htrav : traverseCommits cfg cs = List.filter (fun c => ! isCommitFiltered cfg c) [c0] := by
    simp only [traverseCommits, happ, hone]
  constructor
  · rw [htrav]
    exact le_trans (List.length_filter_le _ _) (by simp)
  · intro c hc
    rw [htrav] at hc
    have hmem1 := (List.mem_filter.mp hc).1
    simp only [List.mem_singleton] at hmem1
    subst hmem1
    exact hc0hash

/-- C1 witness: requesting the hash of the merge commit from a
two-commit list yields that commit alone. -/
theorem traverse_single_found_witness :
    (traverseCommits {defaultConfig with single := some "h2"} [exCommitA, exCommitB]).length ≤ 1
    ∧ traverseCommits {defaultConfig with single := some "h2"} [exCommitA, exCommitB]
        = [exCommitB] :=
  ⟨(traverse_single_found _ _ "h2" rfl ⟨exCommitB, by decide, rfl⟩).1, by decide⟩

/-- C1 counterexample: with `single = "deadbeef"` and a two-commit list
holding no such hash, the loop's fall-through appends every commit
(`since`/`to` being `None`), so the traversal yields 2 commits — the
claimed `length ≤ 1` fails. -/
theorem traverse_single_counterexample :
    ¬ ((traverseCommits {defaultConfig with single := some "deadbeef"}
        [exCommitA, exCommitB]).length ≤ 1) := by
  decide

/-- C2 (amended): with `single`, `since` and `to` all unset the filter
pass returns the backend list unchanged (the fast path) and the
traversal yields, in the chosen order, exactly the commits the boolean
predicates let through; every commit is yielded when the four boolean
predicates are inactive. -/
theorem traverse_no_active_filters (cfg : Config) (cs : List MCommit)
    (hn : allFiltersAreNone cfg = true) :
    applyFiltersOnCommits cfg cs = cs
    ∧ traverseCommits cfg cs
        = (if ¬ cfg.reversed_order then cs.reverse else cs).filter
            (fun c => ! isCommitFiltered cfg c)
    ∧ (cfg.only_in_main_branch = false → cfg.only_in_branches = none →
        cfg.only_modifications_with_file_types = none → cfg.only_no_merge = false →
        traverseCommits cfg cs = if ¬ cfg.reversed_order then cs.reverse else cs) := by
  have happ : applyFiltersOnCommits cfg cs = cs := by
    unfold applyFiltersOnCommits
    rw [if_pos (by simp [hn])]
  have htrav : traverseCommits cfg cs
      = (if ¬ cfg.reversed_order then cs.reverse else cs).filter
          (fun c => ! isCommitFiltered cfg c) := by
    simp only [traverseCommits, happ]
  refine ⟨happ, htrav, ?_⟩
  intro h1 h2 h3 h4
  rw [htrav]
  apply List.filter_eq_self.mpr
  intro c _
  simp [isCommitFiltered, isCommitFiltered.isCommitFilteredRest, h1, h2, h3, h4]

/-- C2 witness: the all-defaults configuration yields both commits of a
two-commit list, oldest (backend-last) first. -/
theorem traverse_no_active_filters_witness :
    traverseCommits defaultConfig [exCommitA, exCommitB] = [exCommitB, exCommitA] := by
  have h := (traverse_no_active_filters defaultConfig [exCommitA, exCommitB] rfl).2.2
    rfl rfl rfl rfl
  simpa using h

/-- C2 counterexample: with `single`/`since`/`to` all unset but
`only_no_merge = true`, the merge commit of the backend list is not in
the output, so the traversal does not yield every commit for all
settings of the boolean predicates. -/
theorem traverse_no_active_filters_counterexample :
    exCommitB ∈ [exCommitA, exCommitB]
    ∧ exCommitB ∉ traverseCommits {defaultConfig with only_no_merge := true}
        [exCommitA, exCommitB] := by
  constructor <;> decide

/-- C3: with `single` unset, every commit the traversal yields passes
the time window, and passing the window is exactly (`since` unset or
`since ≤ author_date`) and (`to` unset or `author_date ≤ to`); in
particular for a set window `since ≤ to`, every yielded commit's
author date lies in `[since, to]`. -/
theorem traverse_window (cfg : Config) (cs : List MCommit) (hs : cfg.single = none) :
    (∀ c ∈ traverseCommits cfg cs, passesWindow cfg c = true)
    ∧ (∀ c : MCommit, passesWindow cfg c = true ↔
        ((∀ s, cfg.since = some s → s ≤ c.author_date)
          ∧ (∀ t, cfg.«to» = some t → c.author_date ≤ t)))
    ∧ (∀ s t, cfg.since = some s → cfg.«to» = some t → s ≤ t →
        ∀ c ∈ traverseCommits cfg cs, s ≤ c.author_date ∧ c.author_date ≤ t) := by
  have part1 : ∀ c ∈ traverseCommits cfg cs, passesWindow cfg c = true := by
    intro c hc
    have hmem : c ∈ applyFiltersOnCommits cfg cs := mem_of_mem_traverse cfg cs c hc
    unfold applyFiltersOnCommits at hmem
    by_cases hnone : allFiltersAreNone cfg = true
    · obtain ⟨_, h2, h3⟩ := allFiltersAreNone_fields cfg hnone
      simp [passesWindow, h2, h3]
    · rw [if_neg (by simp [hnone])] at hmem
      rw [applyFiltersLoop_no_match cfg cs [] (fun x _ => matchesSingle_none cfg hs x)] at hmem
      simp only [List.nil_append] at hmem
      exact (List.mem_filter.mp hmem).2
  have part2 : ∀ c : MCommit, passesWindow cfg c = true ↔
      ((∀ s, cfg.since = some s → s ≤ c.author_date)
        ∧ (∀ t, cfg.«to» = some t → c.author_date ≤ t)) := by
    intro c
    cases hsi : cfg.since <;> cases ht : cfg.«to» <;> simp [passesWindow, hsi, ht]
  refine ⟨part1, part2, ?_⟩
  intro s t hsi ht _ c hc
  obtain ⟨hl, hr⟩ := (part2 c).mp (part1 c hc)
  exact ⟨hl s hsi, hr t ht⟩

/-- C3 witness: with window `[5, 15]` the non-merge commit (date 10) is
yielded and indeed passes the window; the commit dated 20 is not
yielded. -/
theorem traverse_window_witness :
    passesWindow {defaultConfig with since := some 5, «to» := some 15} exCommitA = true
    ∧ exCommitB ∉ traverseCommits {defaultConfig with since := some 5, «to» := some 15}
        [exCommitA, exCommitB] :=
  ⟨(traverse_window {defaultConfig with since := some 5, «to» := some 15}
      [exCommitA, exCommitB] rfl).1 exCommitA (by decide),
   by decide⟩

theorem isCommitFiltered_set_reversed (cfg : Config) (b : Bool) (c : MCommit) :
    isCommitFiltered {cfg with reversed_order := b} c = isCommitFiltered cfg c := by
  cases cfg
  rfl

theorem applyFiltersLoop_set_reversed (cfg : Config) (b : Bool) :
    ∀ cs res : List MCommit,
      applyFiltersLoop {cfg with reversed_order := b} res cs = applyFiltersLoop cfg res cs := by
  intro cs
  induction cs with
  | nil => intro res; rfl
  | cons c rest ih =>
    intro res
    have hm : matchesSingle {cfg with reversed_order := b} c = matchesSingle cfg c := by
      cases cfg; rfl
    have hw : passesWindow {cfg with reversed_order := b} c = passesWindow cfg c := by
      cases cfg; rfl
    simp only [applyFiltersLoop, hm, hw]
    by_cases h1 : matchesSingle cfg c = true
    · rw [if_pos h1, if_pos h1]
    · rw [if_neg h1, if_neg h1]
      by_cases h2 : passesWindow cfg c = true
      · rw [if_pos h2, if_pos h2, ih]
      · rw [if_neg h2, if_neg h2, ih]

theorem applyFiltersOnCommits_set_reversed (cfg : Config) (b : Bool) (cs : List MCommit) :
    applyFiltersOnCommits {cfg with reversed_order := b} cs = applyFiltersOnCommits cfg cs := by
  have hn : allFiltersAreNone {cfg with reversed_order := b} = allFiltersAreNone cfg := by
    cases cfg; rfl
  unfold applyFiltersOnCommits
  rw [hn, applyFiltersLoop_set_reversed cfg b cs []]

/-- C4: for configurations differing only in `reversed_order`, with no
filter active and no commit rejected by the boolean predicates,
`reversed_order = false` yields the reverse of the backend list,
`reversed_order = true` yields the backend list itself, and the two
outputs are reverses of each other. -/
theorem traverse_reversed_order (cfg : Config) (cs : List MCommit)
    (hn : allFiltersAreNone cfg = true)
    (hf : ∀ c ∈ cs, isCommitFiltered cfg c = false) :
    traverseCommits {cfg with reversed_order := false} cs = cs.reverse
    ∧ traverseCommits {cfg with reversed_order := true} cs = cs
    ∧ traverseCommits {cfg with reversed_order := false} cs
        = (traverseCommits {cfg with reversed_order := true} cs).reverse := by
  have happF : applyFiltersOnCommits {cfg with reversed_order := false} cs = cs := by
    rw [applyFiltersOnCommits_set_reversed]
    unfold applyFiltersOnCommits
    rw [if_pos (by simp [hn])]
  have happT : applyFiltersOnCommits {cfg with reversed_order := true} cs = cs := by
    rw [applyFiltersOnCommits_set_reversed]
    unfold applyFiltersOnCommits
    rw [if_pos (by simp [hn])]
  have h1 : traverseCommits {cfg with reversed_order := false} cs = cs.reverse := by
    simp only [traverseCommits, happF]
    rw [if_pos (by simp)]
    apply List.filter_eq_self.mpr
    intro c hc
    rw [isCommitFiltered_set_reversed]
    simp [hf c (List.mem_reverse.mp hc)]
  have h2 : traverseCommits {cfg with reversed_order := true} cs = cs := by
    simp only [traverseCommits, happT]
    rw [if_neg (by simp)]
    apply List.filter_eq_self.mpr
    intro c hc
    rw [isCommitFiltered_set_reversed]
    simp [hf c hc]
  exact ⟨h1, h2, by rw [h1, h2]⟩

/-- C4 witness: on the two-commit list, `reversed_order = false` yields
newest-last and `reversed_order = true` yields the backend order. -/
theorem traverse_reversed_order_witness :
    traverseCommits {defaultConfig with reversed_order := false} [exCommitA, exCommitB]
      = [exCommitB, exCommitA]
    ∧ traverseCommits {defaultConfig with reversed_order := true} [exCommitA, exCommitB]
      = [exCommitA, exCommitB] := by
  have h := traverse_reversed_order defaultConfig [exCommitA, exCommitB] rfl (by decide)
  exact ⟨by rw [h.1]; rfl, h.2.1⟩

/-- C5: `_check_filters` raises exactly on the conflicting
combinations (`single` with any other temporal/range filter,
`from_commit` with `since`, `to_commit` with `to`, `from_tag` with
`since`/`from_commit`, `to_tag` with `to`/`to_commit`); in every
non-conflicting case a set `from_commit`/`from_tag` resolves `since`
to the looked-up commit's author date (and `to_commit`/`to_tag`
resolve `to`), and with none of them set `since`/`to` pass through
unchanged. The check consumes only the two single-commit lookups, never
the commit listing. -/
theorem checkFilters_spec (commitDate tagDate : String → Int) (a : FilterArgs) :
    ((checkFilters commitDate tagDate a).isOk = ! conflictingCombination a)
    ∧ (∀ fc, conflictingCombination a = false → a.from_commit = some fc →
        ∃ t, checkFilters commitDate tagDate a = .ok (some (commitDate fc), t))
    ∧ (∀ ft, conflictingCombination a = false → a.from_tag = some ft →
        ∃ t, checkFilters commitDate tagDate a = .ok (some (tagDate ft), t))
    ∧ (∀ tc, conflictingCombination a = false → a.to_commit = some tc →
        ∃ s, checkFilters commitDate tagDate a = .ok (s, some (commitDate tc)))
    ∧ (∀ tt, conflictingCombination a = false → a.to_tag = some tt →
        ∃ s, checkFilters commitDate tagDate a = .ok (s, some (tagDate tt)))
    ∧ (conflictingCombination a = false → a.from_commit = none → a.from_tag = none →
        a.to_commit = none → a.to_tag = none →
        checkFilters commitDate tagDate a = .ok (a.since, a.«to»)) := by
  rcases a with ⟨sg, si, t0, fc, tc, ft, tt⟩
  cases sg <;> cases si <;> cases t0 <;> cases fc <;> cases tc <;> cases ft <;> cases tt <;>
    simp [checkFilters, conflictingCombination, Except.isOk, Except.toBool]

/-- C5 witness: `from_commit` together with `since` is rejected, while
`from_commit` alone resolves `since` to the commit's author date. -/
theorem checkFilters_spec_witness :
    (checkFilters (fun _ => 42) (fun _ => 7)
        (FilterArgs.mk none (some 5) none (some "abc123") none none none)).isOk = false
    ∧ (∃ t, checkFilters (fun _ => 42) (fun _ => 7)
        (FilterArgs.mk none none none (some "abc123") none none none)
          = .ok (some 42, t)) :=
  ⟨((checkFilters_spec (fun _ => 42) (fun _ => 7)
      (FilterArgs.mk none (some 5) none (some "abc123") none none none)).1).trans (by decide),
   (checkFilters_spec (fun _ => 42) (fun _ => 7)
      (FilterArgs.mk none none none (some "abc123") none none none)).2.1 "abc123"
      (by decide) rfl⟩

end RepositoryMining
